import Mathlib

/-!
Shallow embedding of `src/features/select/selection-service.ts` from
DaftPoint/glsp-client: the `SelectionService` class, which tracks the set of
currently selected diagram element ids against the current model root,
dispatches an aggregated `SelectFeedbackAction` when the selection changes, and
notifies registered `SelectionListener`s when the root or the selection changes.

Modelling choices:
- Element ids are `String`, as in the source.
- An `SModelRoot` carries an identity token `rid` (JavaScript reference
  identity, used by the `prevRoot !== root` comparison) and its index is an
  association list from ids to opaque element tokens (`index.getById` returns
  an element object or `undefined`; elements are modelled as `Nat` tokens,
  `undefined` as `none`).
- The field `private root: Readonly<SModelRoot>` starts out `undefined` and
  `updateSelection` explicitly compares the incoming root with `undefined`,
  so roots are `Option SModelRoot` in the model.
- The JavaScript `Set<string>` is insertion-ordered with no duplicates; it is
  modelled as a `List String`, with `setAdd` (append if absent) and
  `setDelete` (remove) mirroring `Set.add` / `Set.delete`.
- Listeners are identified by `Nat` tokens (listener identity equality).
- Side effects (feedback dispatch and listener notification) are modelled as
  an event trace emitted in program order.
- `updateSelection` on an `undefined` root reaches `root.index.getById(id)`
  whenever the selection set is non-empty at the validation loop, which in
  JavaScript raises a `TypeError`; the embedding returns `Except.error` there.
-/

/-- A model root: `rid` is the reference-identity token, `index` maps element
ids to element tokens (`index.getById`). -/
structure SModelRoot where
  rid : Nat
  index : List (String × Nat)
deriving DecidableEq

/-- Embeds `root.index.getById(id)`: resolve an id in the root's index, `none` for
`undefined`. -/
def getById (r : SModelRoot) (id : String) : Option Nat :=
  (r.index.find? (fun p => p.1 == id)).map (fun p => p.2)

/-- Whether an id resolves in an optional root (`undefined` resolves nothing). -/
def resolves (root : Option SModelRoot) (id : String) : Bool :=
  match root with
  | some r => (getById r id).isSome
  | none => false

/-- Embeds `Set.add`: append the id if it is not already present (JavaScript `Set`
insertion order). -/
def setAdd (s : List String) (id : String) : List String :=
  if id ∈ s then s else s ++ [id]

/-- Embeds `Set.delete`: remove the id. -/
def setDelete (s : List String) (id : String) : List String :=
  s.filter (fun x => x ≠ id)

/-- Embeds `new Set(l)`: the insertion-ordered deduplication of a list. -/
def setOfList (l : List String) : List String :=
  l.foldl setAdd []

/-- Embeds `const toSelect = [...select].filter(selectId => deselect.indexOf(selectId) === -1)` -/
def computeToSelect (select deselect : List String) : List String :=
  select.filter (fun id => ¬ id ∈ deselect)

/-- Embeds `const toDeselect = [...deselect].filter(deselectId => select.indexOf(deselectId) === -1 && this.selectedElementIDs.has(deselectId))` -/
def computeToDeselect (selected select deselect : List String) : List String :=
  deselect.filter (fun id => ¬ id ∈ select ∧ id ∈ selected)

/-- The selection set after the two mutation loops of `updateSelection`:
first every id of `toDeselect` is deleted, then every id of `toSelect` is
added. -/
def applySelectDeselect (selected select deselect : List String) : List String :=
  (computeToSelect select deselect).foldl setAdd
    ((computeToDeselect selected select deselect).foldl setDelete selected)

/-- The selection set after the validation loop against root `r`: ids that do
not resolve in `r.index` are deleted from the set. -/
def finalSelection (r : SModelRoot) (selected select deselect : List String) : List String :=
  (applySelectDeselect selected select deselect).filter (fun id => (getById r id).isSome)

/-- The ids removed by the validation loop that are recorded as deselected:
not resolvable in the new root `r`, but resolvable in the previous root
(`prevRoot !== undefined && prevRoot.index.getById(id)`). -/
def prunedReport (prevRoot : Option SModelRoot) (r : SModelRoot)
    (afterSel : List String) : List String :=
  afterSel.filter (fun id => (getById r id).isNone ∧ resolves prevRoot id)

/-- Embeds `deselectedElementIDs` as emitted in the feedback action:
`new Set(toDeselect)` extended, in validation-loop order, with the pruned ids
that resolved in the previous root. -/
def deselectedReport (prevRoot : Option SModelRoot) (r : SModelRoot)
    (selected select deselect : List String) : List String :=
  (prunedReport prevRoot r (applySelectDeselect selected select deselect)).foldl setAdd
    (setOfList (computeToDeselect selected select deselect))

/-- Embeds `const selectionChanged = prevSelectedElementIDs.size !== this.selectedElementIDs.size || ![...prevSelectedElementIDs].every(value => this.selectedElementIDs.has(value))` -/
def selectionChangedB (prev next : List String) : Bool :=
  decide (prev.length ≠ next.length) || ! (prev.all (fun id => decide (id ∈ next)))

/-- An observable side effect of the tracker: a dispatched
`SelectFeedbackAction` (with its selected and deselected id lists) or a
`selectionChanged` call on one listener (with the root and the selection
snapshot it receives). -/
inductive Event where
  | feedback (selected : List String) (deselected : List String)
  | notify (listener : Nat) (root : Option SModelRoot) (selected : List String)
deriving DecidableEq

/-- Whether an event is a listener notification. -/
def Event.isNotify : Event → Bool
  | Event.notify _ _ _ => true
  | _ => false

/-- Whether an event is a feedback dispatch. -/
def Event.isFeedback : Event → Bool
  | Event.feedback _ _ => true
  | _ => false

/-- Whether an event is a notification of listener `l`. -/
def Event.isNotifyTo (l : Nat) : Event → Bool
  | Event.notify l2 _ _ => l2 == l
  | _ => false

/-- The state of a `SelectionService` instance: the last stored root, the
selection set, and the registered listeners (in registration order). -/
structure SelectionService where
  root : Option SModelRoot
  selectedElementIDs : List String
  selectionListeners : List Nat
deriving DecidableEq

/-- The freshly constructed service: no root, empty selection; the listener
list is the (possibly empty) injected collection. -/
def initialService (listeners : List Nat) : SelectionService :=
  { root := none, selectedElementIDs := [], selectionListeners := listeners }

/-- Modelled from the spec: `distinctAdd` of `utils/array-utils.ts` (not part
of the supplied sources) adds the element to the array only if it is not
already present (listener identity equality). -/
def distinctAdd (l : List Nat) (x : Nat) : List Nat :=
  if x ∈ l then l else l ++ [x]

/-- Modelled from the spec: `remove` of `utils/array-utils.ts` (not part of
the supplied sources) removes the element if present and is a no-op
otherwise. -/
def removeElem (l : List Nat) (x : Nat) : List Nat :=
  l.erase x

/-- Embeds `register(selectionListener)`. -/
def register (s : SelectionService) (l : Nat) : SelectionService :=
  { s with selectionListeners := distinctAdd s.selectionListeners l }

/-- Embeds `deregister(selectionListener)`. -/
def deregister (s : SelectionService) (l : Nat) : SelectionService :=
  { s with selectionListeners := removeElem s.selectionListeners l }

/-- Embeds `updateSelection(root, select, deselect)`: returns the successor state and
the trace of emitted events in program order, or `Except.error` when the
JavaScript code would raise a `TypeError` (validation loop over a non-empty
selection with `root` undefined). -/
def updateSelection (s : SelectionService) (root : Option SModelRoot)
    (select deselect : List String) : Except String (SelectionService × List Event) :=
  if root = none ∧ select = [] ∧ deselect = [] then
    Except.ok (s, [])
  else
    match root with
    | none =>
      if applySelectDeselect s.selectedElementIDs select deselect = [] then
        Except.ok ({ s with root := none, selectedElementIDs := [] },
          (if selectionChangedB s.selectedElementIDs [] then
            [Event.feedback []
              (setOfList (computeToDeselect s.selectedElementIDs select deselect))]
          else []) ++
          (if s.root ≠ none ∨ selectionChangedB s.selectedElementIDs [] = true then
            s.selectionListeners.map (fun l => Event.notify l none [])
          else []))
      else
        Except.error "TypeError: Cannot read properties of undefined (reading index)"
    | some r =>
      Except.ok
        ({ s with
            root := some r,
            selectedElementIDs := finalSelection r s.selectedElementIDs select deselect },
        (if selectionChangedB s.selectedElementIDs
            (finalSelection r s.selectedElementIDs select deselect) then
          [Event.feedback (finalSelection r s.selectedElementIDs select deselect)
            (deselectedReport s.root r s.selectedElementIDs select deselect)]
        else []) ++
        (if s.root ≠ some r ∨ selectionChangedB s.selectedElementIDs
            (finalSelection r s.selectedElementIDs select deselect) = true then
          s.selectionListeners.map (fun l =>
            Event.notify l (some r) (finalSelection r s.selectedElementIDs select deselect))
        else []))

/-- Embeds `modelRootChanged(root)`: delegates to `updateSelection(root, [], [])`. -/
def modelRootChanged (s : SelectionService) (root : SModelRoot) :
    Except String (SelectionService × List Event) :=
  updateSelection s (some root) [] []

/-- Embeds `getModelRoot()`. -/
def getModelRoot (s : SelectionService) : Option SModelRoot :=
  s.root

/-- Embeds `getSelectedElementIDs()`. -/
def getSelectedElementIDs (s : SelectionService) : List String :=
  s.selectedElementIDs

/-- Embeds `hasSelectedElements()`. -/
def hasSelectedElements (s : SelectionService) : Bool :=
  s.selectedElementIDs.length > 0

/-- Embeds `isSingleSelection()`. -/
def isSingleSelection (s : SelectionService) : Bool :=
  s.selectedElementIDs.length = 1

/-- Embeds `isMultiSelection()`. -/
def isMultiSelection (s : SelectionService) : Bool :=
  s.selectedElementIDs.length > 1

/-- The invariant of §3 of the spec: every id in the selection set resolves in
the current model root's index. -/
def SelectionInvariant (s : SelectionService) : Prop :=
  ∀ id ∈ s.selectedElementIDs, resolves s.root id = true

/-! ### Helper lemmas about the set operations -/

theorem mem_setAdd {s : List String} {id x : String} :
    x ∈ setAdd s id ↔ x ∈ s ∨ x = id := by
  unfold setAdd
  split
  · rename_i h
    constructor
    · exact fun hx => Or.inl hx
    · rintro (hx | rfl) <;> [exact hx; exact h]
  · simp [List.mem_append]

theorem mem_setDelete {s : List String} {id x : String} :
    x ∈ setDelete s id ↔ x ∈ s ∧ x ≠ id := by
  unfold setDelete
  simp

theorem mem_foldl_setAdd {l : List String} {init : List String} {x : String} :
    x ∈ l.foldl setAdd init ↔ x ∈ init ∨ x ∈ l := by
  induction l generalizing init with
  | nil => simp
  | cons a l ih =>
    simp only [List.foldl_cons, ih, mem_setAdd, List.mem_cons]
    tauto

theorem mem_foldl_setDelete {l : List String} {init : List String} {x : String} :
    x ∈ l.foldl setDelete init ↔ x ∈ init ∧ x ∉ l := by
  induction l generalizing init with
  | nil => simp
  | cons a l ih =>
    simp only [List.foldl_cons, ih, mem_setDelete, List.mem_cons]
    tauto

theorem mem_setOfList {l : List String} {x : String} :
    x ∈ setOfList l ↔ x ∈ l := by
  unfold setOfList
  simp [mem_foldl_setAdd]

theorem nodup_setAdd {s : List String} {id : String} (h : s.Nodup) :
    (setAdd s id).Nodup := by
  unfold setAdd
  split
  · exact h
  · rename_i hid
    refine h.append (List.nodup_singleton id) ?_
    intro a ha hb
    rw [List.mem_singleton] at hb
    exact hid (hb ▸ ha)

theorem nodup_setDelete {s : List String} {id : String} (h : s.Nodup) :
    (setDelete s id).Nodup :=
  h.filter _

theorem nodup_foldl_setAdd {l : List String} {init : List String} (h : init.Nodup) :
    (l.foldl setAdd init).Nodup := by
  induction l generalizing init with
  | nil => exact h
  | cons a l ih => exact ih (nodup_setAdd h)

theorem nodup_foldl_setDelete {l : List String} {init : List String} (h : init.Nodup) :
    (l.foldl setDelete init).Nodup := by
  induction l generalizing init with
  | nil => exact h
  | cons a l ih => exact ih (nodup_setDelete h)

theorem nodup_setOfList (l : List String) : (setOfList l).Nodup :=
  nodup_foldl_setAdd List.nodup_nil

theorem mem_applySelectDeselect {selected select deselect : List String} {x : String} :
    x ∈ applySelectDeselect selected select deselect ↔
      x ∈ computeToSelect select deselect ∨
        (x ∈ selected ∧ x ∉ computeToDeselect selected select deselect) := by
  unfold applySelectDeselect
  simp only [mem_foldl_setAdd, mem_foldl_setDelete]
  tauto

theorem nodup_applySelectDeselect {selected select deselect : List String}
    (h : selected.Nodup) :
    (applySelectDeselect selected select deselect).Nodup :=
  nodup_foldl_setAdd (nodup_foldl_setDelete h)

theorem nodup_finalSelection {r : SModelRoot} {selected select deselect : List String}
    (h : selected.Nodup) :
    (finalSelection r selected select deselect).Nodup :=
  (nodup_applySelectDeselect h).filter _

theorem mem_finalSelection {r : SModelRoot} {selected select deselect : List String}
    {x : String} :
    x ∈ finalSelection r selected select deselect ↔
      x ∈ applySelectDeselect selected select deselect ∧ (getById r x).isSome := by
  unfold finalSelection
  simp

theorem selectionChangedB_self (l : List String) : selectionChangedB l l = false := by
  simp [selectionChangedB]

theorem selectionChangedB_eq_false_iff {prev next : List String}
    (hp : prev.Nodup) (hn : next.Nodup) :
    selectionChangedB prev next = false ↔ (∀ id, id ∈ prev ↔ id ∈ next) := by
  have h1 : selectionChangedB prev next = false ↔
      (prev.length = next.length ∧ ∀ id ∈ prev, id ∈ next) := by
    simp [selectionChangedB]
  rw [h1]
  constructor
  · rintro ⟨hlen, hsub⟩ id
    have hperm : prev.Perm next :=
      (List.subperm_of_subset hp hsub).perm_of_length_le (le_of_eq hlen.symm)
    exact hperm.mem_iff
  · intro hiff
    have hsub : prev ⊆ next := fun a ha => (hiff a).1 ha
    have hsub2 : next ⊆ prev := fun a ha => (hiff a).2 ha
    have hperm : prev.Perm next :=
      (List.subperm_of_subset hp hsub).perm_of_length_le
        ((List.subperm_of_subset hn hsub2).length_le)
    exact ⟨hperm.length_eq, hsub⟩

/-! ### Unfolding lemmas for `updateSelection` -/

theorem updateSelection_noop_eq (s : SelectionService) :
    updateSelection s none [] [] = Except.ok (s, []) := rfl

theorem updateSelection_some_eq (s : SelectionService) (r : SModelRoot)
    (select deselect : List String) :
    updateSelection s (some r) select deselect =
      Except.ok
        ({ s with
            root := some r,
            selectedElementIDs := finalSelection r s.selectedElementIDs select deselect },
        (if selectionChangedB s.selectedElementIDs
            (finalSelection r s.selectedElementIDs select deselect) then
          [Event.feedback (finalSelection r s.selectedElementIDs select deselect)
            (deselectedReport s.root r s.selectedElementIDs select deselect)]
        else []) ++
        (if s.root ≠ some r ∨ selectionChangedB s.selectedElementIDs
            (finalSelection r s.selectedElementIDs select deselect) = true then
          s.selectionListeners.map (fun l =>
            Event.notify l (some r) (finalSelection r s.selectedElementIDs select deselect))
        else [])) := by
  unfold updateSelection
  split
  · rename_i h
    exact absurd h.1 (by simp)
  · rfl

theorem updateSelection_none_ok_eq (s : SelectionService) (select deselect : List String)
    (hne : ¬(select = [] ∧ deselect = []))
    (hempty : applySelectDeselect s.selectedElementIDs select deselect = []) :
    updateSelection s none select deselect =
      Except.ok ({ s with root := none, selectedElementIDs := [] },
        (if selectionChangedB s.selectedElementIDs [] then
          [Event.feedback []
            (setOfList (computeToDeselect s.selectedElementIDs select deselect))]
        else []) ++
        (if s.root ≠ none ∨ selectionChangedB s.selectedElementIDs [] = true then
          s.selectionListeners.map (fun l => Event.notify l none [])
        else [])) := by
  rw [updateSelection]
  rw [if_neg (fun h => hne ⟨h.2.1, h.2.2⟩)]
  rw [if_pos hempty]

theorem updateSelection_none_error (s : SelectionService) (select deselect : List String)
    (hne : ¬(select = [] ∧ deselect = []))
    (hnonempty : applySelectDeselect s.selectedElementIDs select deselect ≠ []) :
    updateSelection s none select deselect =
      Except.error "TypeError: Cannot read properties of undefined (reading index)" := by
  rw [updateSelection]
  rw [if_neg (fun h => hne ⟨h.2.1, h.2.2⟩)]
  rw [if_neg hnonempty]

/-! ### More helper lemmas -/

theorem not_mem_computeToSelect_of_mem_deselect {select deselect : List String}
    {id : String} (h : id ∈ deselect) : id ∉ computeToSelect select deselect := by
  unfold computeToSelect
  simp only [List.mem_filter, decide_not]
  intro hc
  have := hc.2
  simp only [Bool.not_eq_true', decide_eq_false_iff_not] at this
  exact this h

theorem not_mem_computeToDeselect_of_mem_select {selected select deselect : List String}
    {id : String} (h : id ∈ select) : id ∉ computeToDeselect selected select deselect := by
  unfold computeToDeselect
  simp only [List.mem_filter]
  intro hc
  have := hc.2
  simp only [decide_eq_true_eq] at this
  exact this.1 h

theorem mem_deselect_of_mem_computeToDeselect {selected select deselect : List String}
    {id : String} (h : id ∈ computeToDeselect selected select deselect) : id ∈ deselect := by
  unfold computeToDeselect at h
  exact (List.mem_filter.1 h).1

theorem not_mem_computeToDeselect_of_mem_applySelectDeselect
    {selected select deselect : List String} {id : String}
    (h : id ∈ applySelectDeselect selected select deselect) :
    id ∉ computeToDeselect selected select deselect := by
  intro hc
  rcases mem_applySelectDeselect.1 h with hsel | ⟨_, hnd⟩
  · exact not_mem_computeToSelect_of_mem_deselect
      (mem_deselect_of_mem_computeToDeselect hc) hsel
  · exact hnd hc

/-! ### Concrete fixtures used by counterexamples and witnesses -/

/-- A root whose index resolves ids `n1` and `n2`. -/
def wRootA : SModelRoot := ⟨0, [("n1", 1), ("n2", 2)]⟩

/-- A distinct root whose index resolves only `n2`. -/
def wRootB : SModelRoot := ⟨1, [("n2", 2)]⟩

/-- A service state with root `wRootA`, selection `{n1}` and one listener. -/
def wService : SelectionService :=
  { root := some wRootA, selectedElementIDs := ["n1"], selectionListeners := [7] }

/-! ### Claims -/

/-- C6: for every call `updateSelection(root, select, deselect)` with `root`
unset (`undefined`) and both lists empty, the entire state (stored root,
selection set, listener collection) is returned unchanged and no feedback or
listener notification is emitted. -/
theorem C6_strict_noop (s : SelectionService) :
    updateSelection s none [] [] = Except.ok (s, []) := rfl

/-- C7: `modelRootChanged(root)` produces exactly the same state change,
feedback and listener notifications as `updateSelection(root, [], [])`; in the
source it delegates verbatim, so the two are extensionally equal. -/
theorem C7_modelRootChanged_eq_update (s : SelectionService) (r : SModelRoot) :
    modelRootChanged s r = updateSelection s (some r) [] [] := rfl

/-- C1 counterexample: from the empty initial state, with root `wRootA` whose
index resolves `"n1"`, calling `updateSelection` with `"n1"` in both the
select and deselect lists leaves `"n1"` unselected (the resulting selection
set is empty), refuting the claim that an id occurring in both lists always
ends up selected. -/
theorem C1_counterexample :
    ("n1" ∈ (["n1"] : List String)) ∧ resolves (some wRootA) "n1" = true ∧
    updateSelection (initialService []) (some wRootA) ["n1"] ["n1"] =
      Except.ok
        ({ root := some wRootA, selectedElementIDs := [], selectionListeners := [] },
          []) := by
  refine ⟨by simp, rfl, rfl⟩

/-- C1 (amended): an identifier occurring in both the select and the deselect
list is excluded from both `toSelect` and `toDeselect` (the code comments call
this a no-op), so after the update it is selected if and only if it was
selected before and resolves in the new root's index. -/
theorem C1_amended_conflict_is_noop (s : SelectionService) (r : SModelRoot)
    (select deselect : List String) (id : String)
    (h1 : id ∈ select) (h2 : id ∈ deselect)
    (s2 : SelectionService) (ev : List Event)
    (hok : updateSelection s (some r) select deselect = Except.ok (s2, ev)) :
    id ∈ s2.selectedElementIDs ↔
      (id ∈ s.selectedElementIDs ∧ (getById r id).isSome = true) := by
  rw [updateSelection_some_eq] at hok
  have hstate := congrArg (fun x => match x with
    | Except.ok p => p.1
    | Except.error _ => s2) hok
  simp only at hstate
  rw [← hstate]
  simp only [mem_finalSelection, mem_applySelectDeselect]
  constructor
  · rintro ⟨hsel | ⟨hmem, _⟩, hres⟩
    · exact absurd hsel (not_mem_computeToSelect_of_mem_deselect h2)
    · exact ⟨hmem, hres⟩
  · rintro ⟨hmem, hres⟩
    exact ⟨Or.inr ⟨hmem, not_mem_computeToDeselect_of_mem_select h1⟩, hres⟩

/-- Witness for C1 (amended): concrete instantiation at state `wService`
(selection `{n1}` under root `wRootA`), update with `"n1"` in both lists:
`"n1"` stays selected because it was selected before and resolves in
`wRootA`. -/
theorem C1_amended_conflict_is_noop_witness :
    "n1" ∈ wService.selectedElementIDs ∧ (getById wRootA "n1").isSome = true := by
  have h := C1_amended_conflict_is_noop wService wRootA ["n1"] ["n1"] "n1"
    (by simp) (by simp) wService [] rfl
  exact h.1 (by simp [wService])

/-- C2 counterexample: `updateSelection` called with an undefined root and a
non-empty select list reaches `root.index.getById` on `undefined` and raises a
`TypeError`, refuting the claim that every input completes without an
exception. -/
theorem C2_counterexample :
    updateSelection (initialService []) none ["n1"] [] =
      Except.error "TypeError: Cannot read properties of undefined (reading index)" := rfl

/-- C2 (amended): `updateSelection` completes without an exception whenever
the root argument is defined; with an undefined root it completes exactly when
both lists are empty (the early no-op) or the selection set left by the
select/deselect phase is empty — otherwise it raises a `TypeError` at the
validation loop. -/
theorem C2_amended_completion_characterization (s : SelectionService)
    (root : Option SModelRoot) (select deselect : List String) :
    (∃ p, updateSelection s root select deselect = Except.ok p) ↔
      (root ≠ none ∨ (select = [] ∧ deselect = []) ∨
        applySelectDeselect s.selectedElementIDs select deselect = []) := by
  cases root with
  | some r =>
    constructor
    · intro _
      exact Or.inl (by simp)
    · intro _
      exact ⟨_, updateSelection_some_eq s r select deselect⟩
  | none =>
    by_cases hne : select = [] ∧ deselect = []
    · constructor
      · intro _
        exact Or.inr (Or.inl hne)
      · intro _
        refine ⟨(s, []), ?_⟩
        rw [hne.1, hne.2]
        exact updateSelection_noop_eq s
    · by_cases hempty : applySelectDeselect s.selectedElementIDs select deselect = []
      · constructor
        · intro _
          exact Or.inr (Or.inr hempty)
        · intro _
          exact ⟨_, updateSelection_none_ok_eq s select deselect hne hempty⟩
      · constructor
        · rintro ⟨p, hp⟩
          rw [updateSelection_none_error s select deselect hne hempty] at hp
          exact absurd hp (by simp)
        · rintro (hc | hc | hc)
          · exact absurd rfl hc
          · exact absurd hc hne
          · exact absurd hc hempty

/-- C3: for an update against a defined root `r`, every id remaining in the
selection set after the select/deselect phase that does not resolve in
`r.index` is removed from the final selection; it is recorded in the update's
deselected-report (the deselected list carried by any feedback event this
update emits) exactly when a previous root exists and the id resolved in that
previous root. -/
theorem C3_prune_and_report (s : SelectionService) (r : SModelRoot)
    (select deselect : List String) (id : String)
    (hmem : id ∈ applySelectDeselect s.selectedElementIDs select deselect)
    (hnores : getById r id = none) :
    (∀ s2 ev, updateSelection s (some r) select deselect = Except.ok (s2, ev) →
      id ∉ s2.selectedElementIDs ∧
      ∀ selRep deselRep, Event.feedback selRep deselRep ∈ ev →
        deselRep = deselectedReport s.root r s.selectedElementIDs select deselect) ∧
    (id ∈ deselectedReport s.root r s.selectedElementIDs select deselect ↔
      resolves s.root id = true) := by
  constructor
  · intro s2 ev hok
    rw [updateSelection_some_eq] at hok
    simp only [Except.ok.injEq, Prod.mk.injEq] at hok
    obtain ⟨hs2, hev⟩ := hok
    subst hs2
    subst hev
    constructor
    · simp only [mem_finalSelection]
      rintro ⟨-, hsome⟩
      rw [hnores] at hsome
      simp at hsome
    · intro selRep deselRep hfb
      rcases List.mem_append.1 hfb with hfb2 | hfb2
      · split at hfb2
        · rw [List.mem_singleton] at hfb2
          injection hfb2 with h1 h2
        · simp at hfb2
      · split at hfb2
        · simp only [List.mem_map] at hfb2
          obtain ⟨l, -, hl⟩ := hfb2
          exact absurd hl (by simp)
        · simp at hfb2
  · have hnotd : id ∉ computeToDeselect s.selectedElementIDs select deselect :=
      not_mem_computeToDeselect_of_mem_applySelectDeselect hmem
    unfold deselectedReport
    rw [mem_foldl_setAdd, mem_setOfList]
    unfold prunedReport
    simp only [List.mem_filter, decide_eq_true_eq]
    constructor
    · rintro (hd | ⟨-, -, hres⟩)
      · exact absurd hd hnotd
      · exact hres
    · intro hres
      exact Or.inr ⟨hmem, by simp [hnores], hres⟩

/-- Witness for C3: from state `wService` (selection `{n1}` under `wRootA`),
updating to root `wRootB` (which lacks `n1`) records `"n1"` in the
deselected-report, since `n1` resolved in the previous root `wRootA`. -/
theorem C3_prune_and_report_witness :
    "n1" ∈ deselectedReport wService.root wRootB wService.selectedElementIDs [] [] :=
  ((C3_prune_and_report wService wRootB [] [] "n1" (by decide) rfl).2).mpr rfl

/-- C4: the invariant "every id in the selection set resolves in the current
root's index" holds for the freshly constructed service and is re-established
or preserved by every completed state-changing operation: `updateSelection`,
`register`, `deregister` and `modelRootChanged` (the query methods are pure
functions of the state in this embedding and change nothing). -/
theorem C4_invariant_preservation (s : SelectionService) (hinv : SelectionInvariant s) :
    (∀ ls, SelectionInvariant (initialService ls)) ∧
    (∀ root select deselect s2 ev,
      updateSelection s root select deselect = Except.ok (s2, ev) →
      SelectionInvariant s2) ∧
    (∀ l, SelectionInvariant (register s l)) ∧
    (∀ l, SelectionInvariant (deregister s l)) ∧
    (∀ r s2 ev, modelRootChanged s r = Except.ok (s2, ev) → SelectionInvariant s2) := by
  have hupd : ∀ root select deselect s2 ev,
      updateSelection s root select deselect = Except.ok (s2, ev) →
      SelectionInvariant s2 := by
    intro root select deselect s2 ev hok
    cases root with
    | some r =>
      rw [updateSelection_some_eq] at hok
      simp only [Except.ok.injEq, Prod.mk.injEq] at hok
      obtain ⟨hs2, -⟩ := hok
      subst hs2
      intro id hid
      simp only [mem_finalSelection] at hid
      simpa [resolves] using hid.2
    | none =>
      by_cases hne : select = [] ∧ deselect = []
      · rw [hne.1, hne.2, updateSelection_noop_eq] at hok
        simp only [Except.ok.injEq, Prod.mk.injEq] at hok
        obtain ⟨hs2, -⟩ := hok
        subst hs2
        exact hinv
      · by_cases hempty : applySelectDeselect s.selectedElementIDs select deselect = []
        · rw [updateSelection_none_ok_eq s select deselect hne hempty] at hok
          simp only [Except.ok.injEq, Prod.mk.injEq] at hok
          obtain ⟨hs2, -⟩ := hok
          subst hs2
          intro id hid
          simp at hid
        · rw [updateSelection_none_error s select deselect hne hempty] at hok
          exact absurd hok (by simp)
  refine ⟨?_, hupd, ?_, ?_, ?_⟩
  · intro ls id hid
    simp [initialService] at hid
  · intro l id hid
    exact hinv id hid
  · intro l id hid
    exact hinv id hid
  · intro r s2 ev hok
    exact hupd (some r) [] [] s2 ev hok

/-- Witness for C4: the invariant holds at `wService` and is preserved by
registering a new listener. -/
theorem C4_invariant_preservation_witness :
    SelectionInvariant (register wService 9) :=
  (C4_invariant_preservation wService (by unfold SelectionInvariant; decide)).2.2.1 9

/-- C5: if the root passed to `updateSelection` is the stored root and the
selection set's contents after the completed update equal its contents before,
then no feedback is dispatched and no listener is notified (the event trace is
empty). -/
theorem C5_no_notification_when_unchanged (s : SelectionService)
    (root : Option SModelRoot) (select deselect : List String)
    (s2 : SelectionService) (ev : List Event)
    (hnd : s.selectedElementIDs.Nodup)
    (hroot : root = s.root)
    (hok : updateSelection s root select deselect = Except.ok (s2, ev))
    (hsame : ∀ id, id ∈ s2.selectedElementIDs ↔ id ∈ s.selectedElementIDs) :
    ev = [] := by
  subst hroot
  cases hr : s.root with
  | some r =>
    rw [hr, updateSelection_some_eq] at hok
    simp only [Except.ok.injEq, Prod.mk.injEq] at hok
    obtain ⟨hs2, hev⟩ := hok
    subst hs2
    subst hev
    have hfin : ∀ id,
        id ∈ finalSelection r s.selectedElementIDs select deselect ↔
          id ∈ s.selectedElementIDs :=
      fun id => hsame id
    have hch : selectionChangedB s.selectedElementIDs
        (finalSelection r s.selectedElementIDs select deselect) = false :=
      (selectionChangedB_eq_false_iff hnd (nodup_finalSelection hnd)).mpr
        (fun id => (hfin id).symm)
    simp [hch, hr]
  | none =>
    rw [hr] at hok
    by_cases hne : select = [] ∧ deselect = []
    · rw [hne.1, hne.2, updateSelection_noop_eq] at hok
      simp only [Except.ok.injEq, Prod.mk.injEq] at hok
      exact hok.2.symm
    · by_cases hempty : applySelectDeselect s.selectedElementIDs select deselect = []
      · rw [updateSelection_none_ok_eq s select deselect hne hempty] at hok
        simp only [Except.ok.injEq, Prod.mk.injEq] at hok
        obtain ⟨hs2, hev⟩ := hok
        subst hs2
        subst hev
        have hselnil : s.selectedElementIDs = [] := by
          rw [List.eq_nil_iff_forall_not_mem]
          intro a ha
          have hmem2 := (hsame a).2 ha
          simp at hmem2
        simp [hselnil, selectionChangedB, hr]
      · rw [updateSelection_none_error s select deselect hne hempty] at hok
        exact absurd hok (by simp)

/-- Witness for C5: re-selecting the already-selected `"n1"` under the
unchanged root `wRootA` satisfies the hypotheses, and the emitted trace is
empty. -/
theorem C5_no_notification_when_unchanged_witness :
    (some wRootA = wService.root) ∧ ([] : List Event) = [] :=
  ⟨rfl, C5_no_notification_when_unchanged wService (some wRootA) ["n1"] [] wService []
    (by decide) rfl rfl (fun id => Iff.rfl)⟩

theorem filter_foldl_setAdd_of_false (l init : List String) (p : String → Bool)
    (hl : ∀ x ∈ l, p x = false) :
    (l.foldl setAdd init).filter p = init.filter p := by
  induction l generalizing init with
  | nil => rfl
  | cons a t ih =>
    rw [List.foldl_cons, ih (setAdd init a) (fun x hx => hl x (List.mem_cons_of_mem a hx))]
    unfold setAdd
    split
    · rfl
    · rw [List.filter_append]
      have hpa : p a = false := hl a (List.mem_cons_self a t)
      simp [hpa]

/-- C10: calling `updateSelection` with the current root, a select list none
of whose ids resolve in that root, and an empty deselect list is silently
absorbed: the state is returned unchanged (in particular the selection set),
no feedback and no listener notification occur, and none of those ids is
recorded in the deselected-report. Requires the reachable-state invariant that
the current selection resolves in the current root. -/
theorem C10_phantom_selection_absorbed (s : SelectionService) (r : SModelRoot)
    (select : List String)
    (hroot : s.root = some r)
    (hsel : ∀ id ∈ select, getById r id = none)
    (hinv : SelectionInvariant s) :
    updateSelection s (some r) select [] = Except.ok (s, []) ∧
    ∀ id ∈ select, id ∉ deselectedReport s.root r s.selectedElementIDs select [] := by
  have htosel : computeToSelect select [] = select := by
    unfold computeToSelect
    simp
  have htodesel : computeToDeselect s.selectedElementIDs select [] = [] := rfl
  have happly : applySelectDeselect s.selectedElementIDs select [] =
      select.foldl setAdd s.selectedElementIDs := by
    unfold applySelectDeselect
    rw [htosel, htodesel]
    rfl
  have hfin : finalSelection r s.selectedElementIDs select [] = s.selectedElementIDs := by
    unfold finalSelection
    rw [happly]
    rw [filter_foldl_setAdd_of_false select s.selectedElementIDs _
      (fun x hx => by rw [hsel x hx]; rfl)]
    apply List.filter_eq_self.mpr
    intro a ha
    have := hinv a ha
    rw [hroot] at this
    simpa [resolves] using this
  constructor
  · rw [updateSelection_some_eq]
    rw [hfin]
    rw [selectionChangedB_self]
    rw [← hroot]
    simp
  · intro id hid
    unfold deselectedReport
    rw [mem_foldl_setAdd, mem_setOfList, htodesel]
    unfold prunedReport
    simp only [List.mem_filter, decide_eq_true_eq, List.not_mem_nil, false_or]
    rintro ⟨-, -, hres⟩
    rw [hroot] at hres
    simp only [resolves] at hres
    rw [hsel id hid] at hres
    simp at hres

/-- Witness for C10: selecting the never-existing id `"zz"` under the current
root `wRootA` returns the state `wService` unchanged with an empty trace. -/
theorem C10_phantom_selection_absorbed_witness :
    updateSelection wService (some wRootA) ["zz"] [] = Except.ok (wService, []) :=
  (C10_phantom_selection_absorbed wService wRootA ["zz"] rfl (by decide)
    (by unfold SelectionInvariant; decide)).1

/-! ### Trace helper lemmas -/

theorem filter_isNotify_fb (c : Prop) [Decidable c] (a b : List String) :
    (if c then [Event.feedback a b] else []).filter Event.isNotify = [] := by
  split <;> rfl

theorem filter_isNotify_nt (d : Prop) [Decidable d] (L : List Nat)
    (ro : Option SModelRoot) (sel : List String) :
    (if d then L.map (fun x => Event.notify x ro sel) else []).filter Event.isNotify =
      (if d then L.map (fun x => Event.notify x ro sel) else []) := by
  split
  · refine List.filter_eq_self.mpr ?_
    intro e he
    simp only [List.mem_map] at he
    obtain ⟨x, -, hx⟩ := he
    rw [← hx]
    rfl
  · rfl

theorem mem_distinctAdd_self (L : List Nat) (x : Nat) : x ∈ distinctAdd L x := by
  unfold distinctAdd
  split
  · assumption
  · simp

theorem nodup_distinctAdd {L : List Nat} {x : Nat} (h : L.Nodup) :
    (distinctAdd L x).Nodup := by
  unfold distinctAdd
  split
  · exact h
  · rename_i hx
    refine h.append (List.nodup_singleton x) ?_
    intro a ha hb
    rw [List.mem_singleton] at hb
    exact hx (hb ▸ ha)

theorem countP_isNotifyTo_fb (c : Prop) [Decidable c] (a b : List String) (l : Nat) :
    (if c then [Event.feedback a b] else []).countP (Event.isNotifyTo l) = 0 := by
  split <;> rfl

theorem countP_isNotifyTo_map (L : List Nat) (l : Nat) (ro : Option SModelRoot)
    (sel : List String) (hl : l ∈ L) (hnd : L.Nodup) :
    (L.map (fun x => Event.notify x ro sel)).countP (Event.isNotifyTo l) = 1 := by
  rw [List.countP_map]
  show L.count l = 1
  exact List.count_eq_one_of_mem hnd hl

theorem countP_trace (c d : Prop) [Decidable c] [Decidable d]
    (a b sel : List String) (ro : Option SModelRoot) (L : List Nat) (l : Nat)
    (hl : l ∈ L) (hnd : L.Nodup) :
    (((if c then [Event.feedback a b] else []) ++
      (if d then L.map (fun x => Event.notify x ro sel) else [])).countP
        (Event.isNotifyTo l) ≤ 1) ∧
    ((∃ e ∈ ((if c then [Event.feedback a b] else []) ++
      (if d then L.map (fun x => Event.notify x ro sel) else [])), e.isNotify = true) →
      ((if c then [Event.feedback a b] else []) ++
        (if d then L.map (fun x => Event.notify x ro sel) else [])).countP
          (Event.isNotifyTo l) = 1) := by
  rw [List.countP_append, countP_isNotifyTo_fb]
  constructor
  · split
    · rw [countP_isNotifyTo_map L l ro sel hl hnd]
    · simp
  · rintro ⟨e, he, hnot⟩
    rcases List.mem_append.1 he with he2 | he2
    · split at he2
      · rw [List.mem_singleton] at he2
        subst he2
        simp [Event.isNotify] at hnot
      · simp at he2
    · split at he2
      · rename_i hd
        rw [if_pos hd, countP_isNotifyTo_map L l ro sel hl hnd]
      · simp at he2

/-- C8: for every completed `updateSelection` call, the event trace is a block
of feedback dispatches followed by a block of listener notifications (feedback
strictly precedes any notification); the notifications are exactly one per
registered listener, in registration order, carrying the new root and final
selection, and they are present exactly when the stored root reference changed
or the selection set changed (the boolean change test coincides with semantic
set equality on duplicate-free selections). -/
theorem C8_trace_structure (s : SelectionService) (root : Option SModelRoot)
    (select deselect : List String) (s2 : SelectionService) (ev : List Event)
    (hnd : s.selectedElementIDs.Nodup)
    (hok : updateSelection s root select deselect = Except.ok (s2, ev)) :
    (∃ fb nt, ev = fb ++ nt ∧ (∀ e ∈ fb, e.isFeedback = true) ∧
      (∀ e ∈ nt, e.isNotify = true)) ∧
    (ev.filter Event.isNotify =
      (if s.root ≠ s2.root ∨
          selectionChangedB s.selectedElementIDs s2.selectedElementIDs = true then
        s.selectionListeners.map (fun l => Event.notify l s2.root s2.selectedElementIDs)
      else [])) ∧
    (selectionChangedB s.selectedElementIDs s2.selectedElementIDs = false ↔
      ∀ id, id ∈ s.selectedElementIDs ↔ id ∈ s2.selectedElementIDs) := by
  cases root with
  | some r =>
    rw [updateSelection_some_eq] at hok
    simp only [Except.ok.injEq, Prod.mk.injEq] at hok
    obtain ⟨hs2, hev⟩ := hok
    subst hs2
    subst hev
    refine ⟨⟨_, _, rfl, ?_, ?_⟩, ?_, ?_⟩
    · intro e he
      split at he
      · rw [List.mem_singleton] at he
        subst he
        rfl
      · simp at he
    · intro e he
      split at he
      · simp only [List.mem_map] at he
        obtain ⟨x, -, hx⟩ := he
        rw [← hx]
        rfl
      · simp at he
    · rw [List.filter_append, filter_isNotify_fb, filter_isNotify_nt]
      rfl
    · exact selectionChangedB_eq_false_iff hnd (nodup_finalSelection hnd)
  | none =>
    by_cases hne : select = [] ∧ deselect = []
    · rw [hne.1, hne.2, updateSelection_noop_eq] at hok
      simp only [Except.ok.injEq, Prod.mk.injEq] at hok
      obtain ⟨hs2, hev⟩ := hok
      subst hs2
      subst hev
      refine ⟨⟨[], [], rfl, by simp, by simp⟩, ?_, ?_⟩
      · simp [selectionChangedB_self]
      · exact ⟨fun _ id => Iff.rfl, fun _ => selectionChangedB_self _⟩
    · by_cases hempty : applySelectDeselect s.selectedElementIDs select deselect = []
      · rw [updateSelection_none_ok_eq s select deselect hne hempty] at hok
        simp only [Except.ok.injEq, Prod.mk.injEq] at hok
        obtain ⟨hs2, hev⟩ := hok
        subst hs2
        subst hev
        refine ⟨⟨_, _, rfl, ?_, ?_⟩, ?_, ?_⟩
        · intro e he
          split at he
          · rw [List.mem_singleton] at he
            subst he
            rfl
          · simp at he
        · intro e he
          split at he
          · simp only [List.mem_map] at he
            obtain ⟨x, -, hx⟩ := he
            rw [← hx]
            rfl
          · simp at he
        · rw [List.filter_append, filter_isNotify_fb, filter_isNotify_nt]
          rfl
        · exact selectionChangedB_eq_false_iff hnd List.nodup_nil
      · rw [updateSelection_none_error s select deselect hne hempty] at hok
        exact absurd hok (by simp)

/-- Witness for C8: the root-swap update from `wService` to `wRootB` emits
`[feedback, notify]`, and filtering the trace to notifications yields exactly
the single registered listener's notification. -/
theorem C8_trace_structure_witness :
    ([Event.feedback [] ["n1"], Event.notify 7 (some wRootB) []] : List Event).filter
      Event.isNotify = [Event.notify 7 (some wRootB) []] := by
  have h := C8_trace_structure wService (some wRootB) [] []
    { root := some wRootB, selectedElementIDs := [], selectionListeners := [7] }
    [Event.feedback [] ["n1"], Event.notify 7 (some wRootB) []] (by decide) rfl
  rw [h.2.1]
  rfl

/-- C9: `register` is idempotent on listener identity — registering an
already-registered listener leaves the listener collection unchanged — and
consequently a listener registered twice receives at most one notification
per update, and exactly one in every update whose trace contains a
notification. -/
theorem C9_register_idempotent (s : SelectionService) (l : Nat)
    (hnd : s.selectionListeners.Nodup) :
    (l ∈ s.selectionListeners → register s l = s) ∧
    register (register s l) l = register s l ∧
    (∀ root select deselect s2 ev,
      updateSelection (register (register s l) l) root select deselect =
        Except.ok (s2, ev) →
      ev.countP (Event.isNotifyTo l) ≤ 1 ∧
      ((∃ e ∈ ev, e.isNotify = true) → ev.countP (Event.isNotifyTo l) = 1)) := by
  have hback : ∀ t : SelectionService, l ∈ t.selectionListeners → register t l = t := by
    intro t hmem
    show ({ t with selectionListeners := distinctAdd t.selectionListeners l } :
      SelectionService) = t
    rw [show distinctAdd t.selectionListeners l = t.selectionListeners from if_pos hmem]
  have hidem : register (register s l) l = register s l :=
    hback (register s l) (mem_distinctAdd_self s.selectionListeners l)
  refine ⟨hback s, hidem, ?_⟩
  intro root select deselect s2 ev hok
  rw [hidem] at hok
  have hmemL : l ∈ (register s l).selectionListeners :=
    mem_distinctAdd_self s.selectionListeners l
  have hndL : (register s l).selectionListeners.Nodup := nodup_distinctAdd hnd
  cases root with
  | some r =>
    rw [updateSelection_some_eq] at hok
    simp only [Except.ok.injEq, Prod.mk.injEq] at hok
    obtain ⟨-, hev⟩ := hok
    subst hev
    exact countP_trace _ _ _ _ _ _ _ _ hmemL hndL
  | none =>
    by_cases hne : select = [] ∧ deselect = []
    · rw [hne.1, hne.2, updateSelection_noop_eq] at hok
      simp only [Except.ok.injEq, Prod.mk.injEq] at hok
      obtain ⟨-, hev⟩ := hok
      subst hev
      constructor
      · simp
      · rintro ⟨e, he, -⟩
        simp at he
    · by_cases hempty : applySelectDeselect
        (register s l).selectedElementIDs select deselect = []
      · rw [updateSelection_none_ok_eq (register s l) select deselect hne hempty] at hok
        simp only [Except.ok.injEq, Prod.mk.injEq] at hok
        obtain ⟨-, hev⟩ := hok
        subst hev
        exact countP_trace _ _ _ _ _ _ _ _ hmemL hndL
      · rw [updateSelection_none_error (register s l) select deselect hne hempty] at hok
        exact absurd hok (by simp)

/-- Witness for C9: listener `7` is already registered in `wService`, and
registering it again leaves the state unchanged. -/
theorem C9_register_idempotent_witness :
    register wService 7 = wService :=
  (C9_register_idempotent wService 7 (by decide)).1 (by decide)
